import Mathlib

/-!
# Verification of the pm2md conversion pipeline

A shallow embedding, in Lean 4, of the core conversion pipeline of the
`postman-to-markdown` (pm2md) repository: status-range parsing, response
filtering, collection parsing/validation, destination resolution, unique
file naming and template-driven rendering, as implemented in
`cmd/root.go` (second file of the package) and specified for the
missing `utils.go` helpers by the design document together with
`utils_test.go`.

Conventions of the embedding:
* Go strings handled character-wise (`strings.Split`, `strconv.Atoi`) are
  `List Char`; other strings stay `String`.
* Go's multiple return values `(T, error)` become a `GoResult T` (or an
  explicit pair when the Go function always returns both components);
  a failing type assertion such as `v.(map[string]any)` becomes
  `GoResult.panicked`, which is distinct from a returned error.
* JSON documents (the result of `encoding/json.Unmarshal`) are the
  inductive `Json` below.  JSON numbers are modelled as integers: every
  number the pipeline inspects is an HTTP status code that Go converts
  with `int(x.(float64))`, and the claims under study involve only
  integral values.
* The filesystem is an explicit `FS` state threaded through the
  functions that touch it; `os.Create`, `os.Remove` and `File.Close`
  become pure state transformers.
-/

namespace Pm2Md

/-- Result of a Go call: a normal value, a returned non-nil `error`, or a
runtime panic (e.g. a failing interface type assertion). -/
inductive GoResult (α : Type) where
  | ok (val : α)
  | error (msg : String)
  | panicked (msg : String)
deriving DecidableEq, Repr

/-- `true` exactly on `GoResult.error`. -/
def GoResult.isError {α : Type} : GoResult α → Bool
  | .error _ => true
  | _ => false

/-- A JSON document as produced by `encoding/json.Unmarshal` into
interface values (`map[string]any`, `[]any`, `string`, number, bool,
null).  Numbers are modelled as integers, see the file header. -/
inductive Json where
  | null
  | bool (b : Bool)
  | num (n : Int)
  | str (s : String)
  | arr (elems : List Json)
  | obj (fields : List (String × Json))

/-- Go map indexing `m[key]`: the first binding of `key`, if any. -/
def lookupField (fields : List (String × Json)) (key : String) : Option Json :=
  match fields with
  | [] => none
  | (k, v) :: rest => if k = key then some v else lookupField rest key

/-! ## strings.Split and strconv.Atoi

`parseStatusRanges` uses `strings.Split(s, ",")` and `strings.Split(s, "-")`
(single-character separators) and `strconv.Atoi`.  Both are embedded here
over `List Char` with Go's semantics: `Split` of the empty string is a
one-element list holding the empty string, and `Atoi` accepts an optional
single leading sign followed by at least one ASCII digit, failing on
anything else or on 64-bit overflow. -/

/-- Go `strings.Split s sep` for a single-character separator `sep`. -/
def splitOnChar (sep : Char) : List Char → List (List Char)
  | [] => [[]]
  | c :: rest =>
    if c = sep then [] :: splitOnChar sep rest
    else
      match splitOnChar sep rest with
      | [] => [[c]]
      | t :: ts => (c :: t) :: ts

/-- Decimal value of a digit string (most significant first). -/
def digitsToNat (ds : List Char) : Nat :=
  ds.foldl (fun acc c => acc * 10 + (c.toNat - 48)) 0

/-- Go `strconv.Atoi`: optional single leading `+`/`-`, then one or more
ASCII digits; any other shape, or a value outside the 64-bit signed
range, is an error (`none`). -/
def goAtoi (s : List Char) : Option Int :=
  let signAndDigits : Int × List Char :=
    match s with
    | '-' :: rest => (-1, rest)
    | '+' :: rest => (1, rest)
    | _ => (1, s)
  let sign := signAndDigits.1
  let ds := signAndDigits.2
  if ds = [] then none
  else if ds.all (fun c => c.isDigit) then
    let v : Int := sign * (digitsToNat ds : Int)
    if v < -(2 ^ 63) ∨ 2 ^ 63 - 1 < v then none else some v
  else none

/-! ## parseStatusRanges (cmd/root.go) -/

/-- The error message `fmt.Errorf` produces for a token with too many
dashes. -/
def dashMsg (tok : List Char) : String :=
  "Invalid status format. There should be zero or one dashes in " ++ String.mk tok

/-- The error message `fmt.Errorf` produces for a bound that is not an
integer (`%q` wraps the offending substring in quotes). -/
def intMsg (sub : List Char) : String :=
  "Invalid status range format. Expected an integer, got \"" ++ String.mk sub ++ "\""

/-- One iteration of the `parseStatusRanges` loop: split the token on
`-`, reject more than one dash, convert the one or two bounds with
`Atoi`; a single integer `N` denotes the range `(N, N)`. -/
def parseToken (tok : List Char) : Except String (Int × Int) :=
  match splitOnChar '-' tok with
  | [s0] =>
    match goAtoi s0 with
    | none => .error (intMsg s0)
    | some start => .ok (start, start)
  | [s0, s1] =>
    match goAtoi s0 with
    | none => .error (intMsg s0)
    | some start =>
      match goAtoi s1 with
      | none => .error (intMsg s1)
      | some stop => .ok (start, stop)
  | _ => .error (dashMsg tok)

/-- The whole `parseStatusRanges` loop over the comma-separated tokens:
the first token error aborts and no list is produced. -/
def parseTokens : List (List Char) → Except String (List (Int × Int))
  | [] => .ok []
  | tok :: rest =>
    match parseToken tok with
    | .error e => .error e
    | .ok r =>
      match parseTokens rest with
      | .error e => .error e
      | .ok rs => .ok (r :: rs)

/-- `parseStatusRanges` from cmd/root.go.  Returns the Go pair
`([][]int, error)`: `(none, none)` for the empty expression, the list of
ranges on success, and `(nil, err)` on any error. -/
def parseStatusRanges (statusesStr : List Char) :
    Option (List (Int × Int)) × Option String :=
  if statusesStr = [] then (none, none)
  else
    match parseTokens (splitOnChar ',' statusesStr) with
    | .error e => (none, some e)
    | .ok rs => (some rs, none)

/-! ## The collection data model

Per the design document (section 3), a collection that reaches the filter
has `item : sequence of Endpoint`, every endpoint has
`response : sequence of Response`, and every response has a numeric
`code`; `cmd/root.go` asserts exactly these shapes with interface type
assertions and panics otherwise.  The structured types below encode those
asserted shapes; the `fields` components carry the remaining raw JSON
object entries, which the pipeline never touches. -/

/-- A sample response: its asserted numeric `code` plus the raw object
fields it was built from (untouched by the pipeline). -/
structure Response where
  code : Int
  fields : List (String × Json)

/-- An endpoint: its asserted `response` list plus the remaining raw
object fields. -/
structure Endpoint where
  response : List Response
  fields : List (String × Json)

/-- A parsed collection as used by the pipeline: `info.name`,
`info.schema`, the `item` list, and the remaining raw fields. -/
structure Collection where
  name : String
  schema : String
  item : List Endpoint
  fields : List (String × Json)

/-! ## filterResponsesByStatus (cmd/root.go) -/

/-- The source's in-range test for one range:
`code >= statusRange[0] && code <= statusRange[1]`. -/
def statusInRange (code : Int) (r : Int × Int) : Bool :=
  r.1 ≤ code && code ≤ r.2

/-- The source's inner loop: `code` is in range iff some configured
range contains it. -/
def statusInAnyRange (ranges : List (Int × Int)) (code : Int) : Bool :=
  ranges.any (statusInRange code)

/-- The source's delete-while-iterating loop over one `response` list:
`for j := len(responses) - 1; j >= 0; j--`, deleting index `j` in place
when the code is outside every range.  The counter argument is `j + 1`
(so `0` means the loop is done and `n` starts at index `n - 1`). -/
def filterFrom (ranges : List (Int × Int)) : List Response → Nat → List Response
  | rs, 0 => rs
  | rs, j + 1 =>
    match rs[j]? with
    | some r =>
      if statusInAnyRange ranges r.code then filterFrom ranges rs j
      else filterFrom ranges (rs.eraseIdx j) j
    | none => filterFrom ranges rs j

/-- `filterResponsesByStatus` from cmd/root.go: no-op when
`statusRanges == nil || len(statusRanges) == 0`, otherwise runs the
backward deletion loop on every endpoint's response list. -/
def filterResponsesByStatus (c : Collection) (statusRanges : Option (List (Int × Int))) :
    Collection :=
  match statusRanges with
  | none => c
  | some [] => c
  | some ranges =>
    { c with
      item := c.item.map fun ep =>
        { ep with response := filterFrom ranges ep.response ep.response.length } }

/-- The specification's description of filtering, written from the spec's
words (section 4.4): every response is kept iff its code lies within at
least one range, order preserved, everything else unchanged.  Used as the
reference point of the refinement claims. -/
def specFilterResponses (c : Collection) (ranges : List (Int × Int)) : Collection :=
  { c with
    item := c.item.map fun ep =>
      { ep with response := ep.response.filter fun r => statusInAnyRange ranges r.code } }

/-! ## parseCollection (cmd/root.go)

`parseCollection` runs `json.Unmarshal(jsonBytes, &collection)` into a
`map[string]any` and then checks
`collection["info"].(map[string]any)["schema"]` against the fixed schema
identifier.  The embedding starts from the decoded JSON document (the
byte-level decoder is the external `encoding/json` collaborator):

* a document that is a JSON object reaches the schema check;
* JSON `null` unmarshals into a nil map without error, after which the
  `info` lookup yields nil and the type assertion panics;
* any other document shape makes `Unmarshal` itself fail with a decode
  (type) error, which `parseCollection` returns as-is;
* an `info` member that is absent or not an object makes the
  `.(map[string]any)` assertion panic — this is a runtime panic, not a
  returned error;
* when `info` is an object, any `schema` value different from the
  constant — absent, non-string, or a different string — fails the `!=`
  interface comparison and yields the schema error. -/

/-- The fixed schema identifier checked by `parseCollection`. -/
def expectedSchema : String :=
  "https://schema.getpostman.com/json/collection/v2.1.0/collection.json"

/-- The schema-mismatch error message from cmd/root.go. -/
def schemaErrMsg : String :=
  "Unknown JSON schema. When exporting from Postman, export as Collection v2.1.0"

/-- The decode (type) error `encoding/json` produces when the document is
not an object (modelled message). -/
def decodeTypeMsg : String :=
  "json: cannot unmarshal value into Go value of type map[string]interface"

/-- The panic message of the failing `.(map[string]any)` assertion
(modelled message). -/
def infoAssertMsg : String :=
  "interface conversion: interface is nil or not map[string]interface"

/-- `parseCollection` from cmd/root.go, from the decoded document on. -/
def parseCollection (doc : Json) : GoResult Json :=
  match doc with
  | Json.obj fields =>
    match lookupField fields "info" with
    | some (Json.obj infoFields) =>
      match lookupField infoFields "schema" with
      | some (Json.str s) =>
        if s = expectedSchema then GoResult.ok (Json.obj fields)
        else GoResult.error schemaErrMsg
      | _ => GoResult.error schemaErrMsg
    | _ => GoResult.panicked infoAssertMsg
  | Json.null => GoResult.panicked infoAssertMsg
  | _ => GoResult.error decodeTypeMsg

/-! ## The structured view of a parsed document

The remaining pipeline stages read `info.name` and, while filtering, the
`item`/`response`/`code` shape, through interface type assertions.
`asCollection` performs those assertions at once: `some` is the
structured view, `none` is the panic case. -/

/-- View a JSON value as a `Response` (`.(map[string]any)` and
`["code"].(float64)` assertions). -/
def asResponse : Json → Option Response
  | Json.obj fields =>
    match lookupField fields "code" with
    | some (Json.num n) => some ⟨n, fields⟩
    | _ => none
  | _ => none

/-- View a JSON value as an `Endpoint` (`.(map[string]any)` and
`["response"].([]any)` assertions). -/
def asEndpoint : Json → Option Endpoint
  | Json.obj fields =>
    match lookupField fields "response" with
    | some (Json.arr rs) =>
      match rs.mapM asResponse with
      | some resps => some ⟨resps, fields⟩
      | none => none
    | _ => none
  | _ => none

/-- View a decoded document as a `Collection` (`info.name`, `info.schema`
and `item` assertions). -/
def asCollection : Json → Option Collection
  | Json.obj fields =>
    match lookupField fields "info" with
    | some (Json.obj infoFields) =>
      match lookupField infoFields "name", lookupField infoFields "schema" with
      | some (Json.str nm), some (Json.str sch) =>
        match lookupField fields "item" with
        | some (Json.arr items) =>
          match items.mapM asEndpoint with
          | some eps => some ⟨nm, sch, eps, fields⟩
          | none => none
        | _ => none
      | _, _ => none
    | _ => none
  | _ => none

/-! ## The filesystem model

The pipeline's observable filesystem effects are `os.Create`,
`os.Remove`, `File.Close` and writes through the sink.  `FS` records the
regular files (name and content), the accumulated standard output, the
open file handles, and whether standard output has been closed. -/

/-- Filesystem-and-stdout state. -/
structure FS where
  files : List (String × String)
  stdout : String
  openHandles : List String
  stdoutClosed : Bool
deriving DecidableEq, Repr

/-- `FileExists` from the missing utils.go: whether a file of the given
name exists (per its uses and tests, a pure existence probe). -/
def FileExists (fs : FS) (name : String) : Bool :=
  fs.files.any fun f => f.1 = name

/-- `os.Create`: create or truncate the named file and open a handle on
it (the model's create never fails). -/
def osCreate (fs : FS) (name : String) : FS :=
  { fs with
    files := (name, "") :: fs.files.filter fun f => ¬ f.1 = name
    openHandles := name :: fs.openHandles }

/-- `os.Remove` on a name: delete the named file if present.  Note Go's
`os.Remove` acts on whatever name it is handed, including `"-"`. -/
def osRemove (fs : FS) (name : String) : FS :=
  { fs with files := fs.files.filter fun f => ¬ f.1 = name }

/-- `File.Close` on the sink of the given name: closing a regular file
releases its handle; closing the `"-"` sink closes standard output. -/
def closeSink (fs : FS) (name : String) : FS :=
  if name = "-" then { fs with stdoutClosed := true }
  else { fs with openHandles := fs.openHandles.filter fun h => ¬ h = name }

/-- Write rendered bytes through the sink: to standard output for `"-"`,
appended to the named file otherwise. -/
def fsWrite (fs : FS) (name : String) (out : String) : FS :=
  if name = "-" then { fs with stdout := fs.stdout ++ out }
  else
    { fs with
      files := fs.files.map fun f => if f.1 = name then (f.1, f.2 ++ out) else f }

/-! ## The unique-namer and file-name sanitizer (missing utils.go)

`utils.go` is not part of the sources; only `utils_test.go` and the
design document (sections 4.2 and 4.5) describe `CreateUniqueFileName`
and `FormatFileName`.  Both are modelled from the spec below. -/

/-- Modelled from the spec: `FormatFileName` (utils.go, absent from the
sources) derives a file name from a collection name by stripping the
characters that are illegal in file names (section 4.5: "strip/replace
characters illegal in file names"). -/
def FormatFileName (s : String) : String :=
  String.mk (s.data.filter fun c =>
    ¬ (c = '/' ∨ c = '\\' ∨ c = ':' ∨ c = '*' ∨ c = '?' ∨ c = '"' ∨
       c = '<' ∨ c = '>' ∨ c = '|'))

/-- Decimal digit to character. -/
def digitChar : Nat → Char
  | 0 => '0'
  | 1 => '1'
  | 2 => '2'
  | 3 => '3'
  | 4 => '4'
  | 5 => '5'
  | 6 => '6'
  | 7 => '7'
  | 8 => '8'
  | _ => '9'

/-- Decimal digits of `n`, most significant first, with structural fuel
(`fuel > n` suffices). -/
def natDigitsAux : Nat → Nat → List Char
  | 0, _ => []
  | fuel + 1, n =>
    if n < 10 then [digitChar n]
    else natDigitsAux fuel (n / 10) ++ [digitChar (n % 10)]

/-- Decimal digits of `n`, most significant first. -/
def natDigits (n : Nat) : List Char :=
  natDigitsAux (n + 1) n

/-- The candidate name `base(i)` + `ext` probed by the unique namer. -/
def nameWithIdx (base ext : String) (i : Nat) : String :=
  base ++ "(" ++ String.mk (natDigits i) ++ ")" ++ ext

/-- A well-formed extension: empty, or a dot followed by at least one
character (spec section 4.2: `"md"` and `"."` are contract violations). -/
def validExt (ext : String) : Bool :=
  ext = "" ||
    (match ext.data with
     | '.' :: rest => rest ≠ []
     | _ => false)

/-- The panic message of the unique namer's extension contract check
(modelled message). -/
def extMsg : String :=
  "CreateUniqueFileName: extension must be empty or a dot followed by at least one character"

/-- Sequential probe of the unique namer: return the first index `≥ i`
whose candidate name is free, trying `i`, `i + 1`, … (the fuel is only a
termination device; `fs.files.length + 1` probes always suffice). -/
def firstFreeIdx (fs : FS) (base ext : String) : Nat → Nat → Nat
  | 0, i => i
  | fuel + 1, i =>
    if FileExists fs (nameWithIdx base ext i) then firstFreeIdx fs base ext fuel (i + 1)
    else i

/-- The index the unique namer settles on when `base ++ ext` is taken. -/
def uniqueIdx (fs : FS) (base ext : String) : Nat :=
  firstFreeIdx fs base ext (fs.files.length + 1) 1

/-- Modelled from the spec: `CreateUniqueFileName` (utils.go, absent from
the sources; spec section 4.2 and `TestCreateUniqueFileName`).  Panics on
a malformed extension; returns `base ++ ext` unchanged when that name is
free; otherwise probes `base(1)+ext`, `base(2)+ext`, … sequentially from
1 and returns the first free candidate.  It only reads file existence —
the `FS` argument is never modified (the function returns no state). -/
def CreateUniqueFileName (fs : FS) (base ext : String) : GoResult String :=
  if validExt ext = false then GoResult.panicked extMsg
  else if FileExists fs (base ++ ext) = false then GoResult.ok (base ++ ext)
  else GoResult.ok (nameWithIdx base ext (uniqueIdx fs base ext))

/-! ## getDestFile (cmd/root.go) -/

/-- The destination-conflict error message from cmd/root.go (`%q` wraps
the name in quotes). -/
def existsMsg (destName : String) : String :=
  "File \"" ++ destName ++
    "\" already exists. Run the command again with the --replace flag to confirm replacing it."

/-- `getDestFile` from cmd/root.go.  The sink is identified by its final
name (`"-"` meaning standard output); on success the file branch leaves
the created file open in the state. -/
def getDestFile (fs : FS) (destName collectionName : String)
    (confirmReplaceExistingFile : Bool) : GoResult String × FS :=
  if destName = "-" then (GoResult.ok "-", fs)
  else if destName = "" then
    let fileName := FormatFileName collectionName
    let fileName := if fileName = "" then "collection" else fileName
    match CreateUniqueFileName fs fileName ".md" with
    | GoResult.ok newName => (GoResult.ok newName, osCreate fs newName)
    | GoResult.error e => (GoResult.error e, fs)
    | GoResult.panicked m => (GoResult.panicked m, fs)
  else if FileExists fs destName && !confirmReplaceExistingFile then
    (GoResult.error (existsMsg destName), fs)
  else (GoResult.ok destName, osCreate fs destName)

/-! ## executeTemplate and jsonToMdFile (cmd/root.go)

The `html/template` engine is an external collaborator: it is modelled as
an oracle that either reports a compilation error or executes, producing
the bytes it managed to write (possibly partial) together with an
optional execution error. -/

/-- The external template engine: `compileErr name src` is the
compilation error, if any; `exec name src collection` is the written
output (possibly partial) paired with the execution error, if any. -/
structure TmplEngine where
  compileErr : String → String → Option String
  exec : String → String → Collection → String × Option String

/-- `executeTemplate` from cmd/root.go: compile the template (wrapping a
compilation failure in "Template parsing error: "), then execute it into
the sink; the sink is not closed here. -/
def executeTemplate (engine : TmplEngine) (fs : FS) (sinkName : String)
    (collection : Collection) (tmplName tmplStr : String) : Option String × FS :=
  match engine.compileErr tmplName tmplStr with
  | some e => (some ("Template parsing error: " ++ e), fs)
  | none =>
    let outAndErr := engine.exec tmplName tmplStr collection
    (outAndErr.2, fsWrite fs sinkName outAndErr.1)

/-- `jsonToMdFile` from cmd/root.go, from the decoded document on:
parse and validate, filter, resolve the destination, render; on a render
error, `destFile.Close()` then `os.Remove(destName)` run before the
error is returned (note both run whatever the destination name, `"-"`
included); on success the deferred close runs for file sinks. -/
def jsonToMdFile (engine : TmplEngine) (fs : FS) (doc : Json)
    (destName tmplName tmplStr : String) (statusRanges : Option (List (Int × Int)))
    (confirmReplaceExistingFile : Bool) : GoResult String × FS :=
  match parseCollection doc with
  | GoResult.error e => (GoResult.error e, fs)
  | GoResult.panicked m => (GoResult.panicked m, fs)
  | GoResult.ok parsed =>
    match asCollection parsed with
    | none => (GoResult.panicked infoAssertMsg, fs)
    | some collection =>
      let collection := filterResponsesByStatus collection statusRanges
      match getDestFile fs destName collection.name confirmReplaceExistingFile with
      | (GoResult.error e, fs1) => (GoResult.error e, fs1)
      | (GoResult.panicked m, fs1) => (GoResult.panicked m, fs1)
      | (GoResult.ok finalName, fs1) =>
        match executeTemplate engine fs1 finalName collection tmplName tmplStr with
        | (some e, fs2) =>
          (GoResult.error e, osRemove (closeSink fs2 finalName) finalName)
        | (none, fs2) =>
          (GoResult.ok finalName,
            if finalName = "-" then fs2 else closeSink fs2 finalName)

/-! ## Concrete example values used by witnesses and counterexamples -/

/-- Concrete collection with responses coded 200, 301 and 404 on a
single endpoint. -/
def cEx : Collection :=
  ⟨"api", expectedSchema,
    [⟨[⟨200, [("code", Json.num 200)]⟩,
       ⟨301, [("code", Json.num 301)]⟩,
       ⟨404, [("code", Json.num 404)]⟩], []⟩],
    []⟩

/-- A minimal valid collection: one endpoint with one response. -/
def minimalCollection : Collection :=
  ⟨"Minimal", expectedSchema, [⟨[⟨200, [("code", Json.num 200)]⟩], []⟩], []⟩

/-- A decoded document with the expected schema, a `name`, and an empty
`item` list. -/
def docEx : Json :=
  Json.obj
    [("info", Json.obj [("name", Json.str "c"), ("schema", Json.str expectedSchema)]),
     ("item", Json.arr [])]

/-- The structured view of `docEx`. -/
def cDocEx : Collection :=
  ⟨"c", expectedSchema, [],
    [("info", Json.obj [("name", Json.str "c"), ("schema", Json.str expectedSchema)]),
     ("item", Json.arr [])]⟩

/-- A template engine that compiles fine, writes `PART` to the sink and
then reports the execution error `boom`. -/
def engineFailEx : TmplEngine :=
  ⟨fun _ _ => none, fun _ _ _ => ("PART", some "boom")⟩

/-- A deterministic template engine rendering the collection name. -/
def engineOkEx : TmplEngine :=
  ⟨fun _ _ => none, fun _ _ c => ("# " ++ c.name, none)⟩

/-- `true` exactly on `Except.error`. -/
def exceptErr {α : Type} : Except String α → Bool
  | .error _ => true
  | .ok _ => false

/-! ## Lemmas about splitOnChar -/

theorem splitOnChar_ne_nil (sep : Char) (l : List Char) : splitOnChar sep l ≠ [] := by
  induction l with
  | nil => simp [splitOnChar]
  | cons c rest ih =>
    simp only [splitOnChar]
    split
    · simp
    · split
      · simp
      · simp

theorem splitOnChar_of_not_mem (sep : Char) (l : List Char) (h : sep ∉ l) :
    splitOnChar sep l = [l] := by
  induction l with
  | nil => rfl
  | cons c rest ih =>
    have hc : ¬ c = sep := fun hcs => h (hcs ▸ List.mem_cons_self c rest)
    have hrest : sep ∉ rest := fun hm => h (List.mem_cons_of_mem c hm)
    simp only [splitOnChar, if_neg hc, ih hrest]

theorem splitOnChar_append_sep (sep : Char) (l1 l2 : List Char) (h : sep ∉ l1) :
    splitOnChar sep (l1 ++ sep :: l2) = l1 :: splitOnChar sep l2 := by
  induction l1 with
  | nil => simp [splitOnChar]
  | cons c rest ih =>
    have hc : ¬ c = sep := fun hcs => h (hcs ▸ List.mem_cons_self c rest)
    have hrest : sep ∉ rest := fun hm => h (List.mem_cons_of_mem c hm)
    show splitOnChar sep (c :: (rest ++ sep :: l2)) = (c :: rest) :: splitOnChar sep l2
    simp only [splitOnChar, if_neg hc]
    rw [ih hrest]

theorem splitOnChar_concat_sep (sep : Char) (l : List Char) :
    splitOnChar sep (l ++ [sep]) = splitOnChar sep l ++ [[]] := by
  induction l with
  | nil => simp [splitOnChar]
  | cons c rest ih =>
    show splitOnChar sep (c :: (rest ++ [sep])) = splitOnChar sep (c :: rest) ++ [[]]
    by_cases hc : c = sep
    · subst hc
      simp only [splitOnChar, if_pos rfl]
      rw [ih]
      rfl
    · rcases hs : splitOnChar sep rest with _ | ⟨t, ts⟩
      · exact absurd hs (splitOnChar_ne_nil sep rest)
      · simp only [splitOnChar, if_neg hc]
        rw [ih, hs]
        rfl

/-! ## Lemmas about parseToken and parseTokens -/

theorem parseToken_single (tok : List Char) (n : Int) (hno : '-' ∉ tok)
    (ha : goAtoi tok = some n) : parseToken tok = Except.ok (n, n) := by
  unfold parseToken
  rw [splitOnChar_of_not_mem '-' tok hno]
  simp [ha]

theorem parseToken_pair (t1 t2 : List Char) (a b : Int) (h1 : '-' ∉ t1) (h2 : '-' ∉ t2)
    (ha : goAtoi t1 = some a) (hb : goAtoi t2 = some b) :
    parseToken (t1 ++ '-' :: t2) = Except.ok (a, b) := by
  unfold parseToken
  rw [splitOnChar_append_sep '-' t1 t2 h1, splitOnChar_of_not_mem '-' t2 h2]
  simp [ha, hb]

theorem parseToken_single_err (tok : List Char) (hno : '-' ∉ tok)
    (ha : goAtoi tok = none) : parseToken tok = Except.error (intMsg tok) := by
  unfold parseToken
  rw [splitOnChar_of_not_mem '-' tok hno]
  simp [ha]

theorem parseToken_pair_start_err (t1 t2 : List Char) (h1 : '-' ∉ t1) (h2 : '-' ∉ t2)
    (ha : goAtoi t1 = none) :
    parseToken (t1 ++ '-' :: t2) = Except.error (intMsg t1) := by
  unfold parseToken
  rw [splitOnChar_append_sep '-' t1 t2 h1, splitOnChar_of_not_mem '-' t2 h2]
  simp [ha]

theorem parseToken_pair_end_err (t1 t2 : List Char) (a : Int)
    (h1 : '-' ∉ t1) (h2 : '-' ∉ t2)
    (ha : goAtoi t1 = some a) (hb : goAtoi t2 = none) :
    parseToken (t1 ++ '-' :: t2) = Except.error (intMsg t2) := by
  unfold parseToken
  rw [splitOnChar_append_sep '-' t1 t2 h1, splitOnChar_of_not_mem '-' t2 h2]
  simp [ha, hb]

theorem parseToken_nil_err : parseToken [] = Except.error (intMsg []) := rfl

theorem parseToken_head_dash_err (t : List Char) :
    exceptErr (parseToken ('-' :: t)) = true := by
  rcases hs : splitOnChar '-' t with _ | ⟨u, us⟩
  · exact absurd hs (splitOnChar_ne_nil '-' t)
  · unfold parseToken
    have hsplit : splitOnChar '-' ('-' :: t) = [] :: u :: us := by
      simp [splitOnChar, hs]
    rw [hsplit]
    have h0 : goAtoi ([] : List Char) = none := rfl
    cases us with
    | nil => simp [h0, exceptErr]
    | cons v vs => simp [exceptErr]

theorem parseToken_last_dash_err (t : List Char) :
    exceptErr (parseToken (t ++ ['-'])) = true := by
  rcases hs : splitOnChar '-' t with _ | ⟨u, us⟩
  · exact absurd hs (splitOnChar_ne_nil '-' t)
  · unfold parseToken
    have : splitOnChar '-' (t ++ ['-']) = (u :: us) ++ [[]] := by
      rw [splitOnChar_concat_sep '-' t, hs]
    rw [this]
    have h0 : goAtoi ([] : List Char) = none := rfl
    cases us with
    | nil =>
      cases ha : goAtoi u with
      | none => simp [ha, exceptErr]
      | some a => simp [ha, h0, exceptErr]
    | cons v vs =>
      cases vs with
      | nil => simp [exceptErr]
      | cons w ws => simp [exceptErr]

theorem parseTokens_mem_err (toks : List (List Char)) (t : List Char)
    (hmem : t ∈ toks) (herr : exceptErr (parseToken t) = true) :
    ∃ e, parseTokens toks = Except.error e := by
  induction toks with
  | nil => cases hmem
  | cons hd rest ih =>
    unfold parseTokens
    cases hph : parseToken hd with
    | error e => exact ⟨e, rfl⟩
    | ok r =>
      rcases List.mem_cons.mp hmem with heq | hmem'
      · subst heq
        rw [hph] at herr
        simp [exceptErr] at herr
      · rcases ih hmem' with ⟨e, he⟩
        rw [he]
        exact ⟨e, rfl⟩

/-! ## Claims C5, C6 and C10: the status-range grammar -/

/-- Claim C5: `parseStatusRanges` maps every well-formed expression to
the corresponding list of inclusive ranges in token order: a
single-integer token `N` yields the range `(N, N)`, a token `N-M` yields
`(N, M)` with no bound-ordering check, `parse "200"` is `[(200, 200)]`,
`parse "200-299,400-499"` is `[(200, 299), (400, 499)]`, and the empty
string yields `(nil, no error)`, meaning no filtering. -/
theorem parseStatusRanges_wellFormed
    (tok t1 t2 expr : List Char) (n a b : Int) (rs : List (Int × Int))
    (h1 : '-' ∉ tok) (h2 : goAtoi tok = some n)
    (h3 : '-' ∉ t1) (h4 : '-' ∉ t2)
    (h5 : goAtoi t1 = some a) (h6 : goAtoi t2 = some b)
    (h7 : expr ≠ []) (h8 : parseTokens (splitOnChar ',' expr) = Except.ok rs) :
    parseStatusRanges "200".data = (some [(200, 200)], none) ∧
    parseStatusRanges "200-299,400-499".data = (some [(200, 299), (400, 499)], none) ∧
    parseStatusRanges [] = (none, none) ∧
    parseToken tok = Except.ok (n, n) ∧
    parseToken (t1 ++ '-' :: t2) = Except.ok (a, b) ∧
    parseStatusRanges expr = (some rs, none) := by
  refine ⟨by decide, by decide, rfl, parseToken_single tok n h1 h2,
    parseToken_pair t1 t2 a b h3 h4 h5 h6, ?_⟩
  unfold parseStatusRanges
  rw [if_neg h7, h8]

/-- Witness for C5 at concrete inputs. -/
theorem parseStatusRanges_wellFormed_witness :
    parseStatusRanges "200".data = (some [(200, 200)], none) ∧
    parseStatusRanges "200-299,400-499".data = (some [(200, 299), (400, 499)], none) ∧
    parseStatusRanges [] = (none, none) ∧
    parseToken "7".data = Except.ok (7, 7) ∧
    parseToken ("400".data ++ '-' :: "499".data) = Except.ok (400, 499) ∧
    parseStatusRanges "5".data = (some [(5, 5)], none) :=
  parseStatusRanges_wellFormed "7".data "400".data "499".data "5".data 7 400 499 [(5, 5)]
    (by decide) (by decide) (by decide) (by decide) (by decide) (by decide) (by decide) rfl

/-- Claim C6: `parseStatusRanges` fails on every malformed expression
and fails atomically: a token with more than one dash (e.g.
`200-299-300`) is a format error; a non-integer start or end is a format
error whose message reports the substring that failed to parse — for a
single-integer token (e.g. `abc`), for the start bound of an `N-M` token
(e.g. `abc-200`), and for the end bound of an `N-M` token (e.g.
`200-abc`); and on any error the returned range list is nil, never a
partial list. -/
theorem parseStatusRanges_malformed (tok s1 s2 u1 u2 expr : List Char) (a : Int)
    (h1 : '-' ∉ tok) (h2 : goAtoi tok = none)
    (hs1 : '-' ∉ s1) (hs2 : '-' ∉ s2) (hs3 : goAtoi s1 = none)
    (hu1 : '-' ∉ u1) (hu2 : '-' ∉ u2) (hu3 : goAtoi u1 = some a) (hu4 : goAtoi u2 = none)
    (h3 : (parseStatusRanges expr).2.isSome = true) :
    parseStatusRanges "200-299-300".data = (none, some (dashMsg "200-299-300".data)) ∧
    parseStatusRanges "abc".data = (none, some (intMsg "abc".data)) ∧
    parseStatusRanges "abc-200".data = (none, some (intMsg "abc".data)) ∧
    parseStatusRanges "200-abc".data = (none, some (intMsg "abc".data)) ∧
    parseToken tok = Except.error (intMsg tok) ∧
    parseToken (s1 ++ '-' :: s2) = Except.error (intMsg s1) ∧
    parseToken (u1 ++ '-' :: u2) = Except.error (intMsg u2) ∧
    (parseStatusRanges expr).1 = none := by
  refine ⟨by decide, by decide, by decide, by decide,
    parseToken_single_err tok h1 h2,
    parseToken_pair_start_err s1 s2 hs1 hs2 hs3,
    parseToken_pair_end_err u1 u2 a hu1 hu2 hu3 hu4, ?_⟩
  unfold parseStatusRanges at h3 ⊢
  by_cases he : expr = []
  · rw [if_pos he] at h3
    simp at h3
  · rw [if_neg he] at h3 ⊢
    cases hp : parseTokens (splitOnChar ',' expr) with
    | error e => rfl
    | ok rs =>
      rw [hp] at h3
      simp at h3

/-- Witness for C6 at concrete inputs: the dashless token `abc`, the
dashed tokens `abc-200` (bad start) and `200-abc` (bad end), and the
erroring expression `abc`. -/
theorem parseStatusRanges_malformed_witness :
    parseStatusRanges "200-299-300".data = (none, some (dashMsg "200-299-300".data)) ∧
    parseStatusRanges "abc".data = (none, some (intMsg "abc".data)) ∧
    parseStatusRanges "abc-200".data = (none, some (intMsg "abc".data)) ∧
    parseStatusRanges "200-abc".data = (none, some (intMsg "abc".data)) ∧
    parseToken "abc".data = Except.error (intMsg "abc".data) ∧
    parseToken ("abc".data ++ '-' :: "200".data) = Except.error (intMsg "abc".data) ∧
    parseToken ("200".data ++ '-' :: "abc".data) = Except.error (intMsg "abc".data) ∧
    (parseStatusRanges "abc".data).1 = none :=
  parseStatusRanges_malformed "abc".data "abc".data "200".data "200".data "abc".data
    "abc".data 200 (by decide) (by decide) (by decide) (by decide) (by decide)
    (by decide) (by decide) (by decide) (by decide) (by decide)

/-- Claim C10 (implicit): negative status bounds are inexpressible in
the range grammar — for every non-empty expression in which some
comma-separated token is empty or begins or ends with a dash (for
example `-100`, `100-`, `200,` or `,200`), `parseStatusRanges` returns
an error and a nil range list, because splitting the token on `-` yields
an empty bound substring that fails integer parsing (or, with further
dashes, trips the dash-count check).  The empty expression has no tokens
and is the no-filtering case, hence the non-emptiness hypothesis. -/
theorem parseStatusRanges_dashEdge (expr tok : List Char)
    (h1 : expr ≠ [])
    (h2 : tok ∈ splitOnChar ',' expr)
    (h3 : tok = [] ∨ (∃ t, tok = '-' :: t) ∨ (∃ t, tok = t ++ ['-'])) :
    (parseStatusRanges expr).1 = none ∧ (parseStatusRanges expr).2.isSome = true := by
  have herr : exceptErr (parseToken tok) = true := by
    rcases h3 with h | ⟨t, ht⟩ | ⟨t, ht⟩
    · subst h
      rfl
    · subst ht
      exact parseToken_head_dash_err t
    · subst ht
      exact parseToken_last_dash_err t
  rcases parseTokens_mem_err _ tok h2 herr with ⟨e, he⟩
  unfold parseStatusRanges
  rw [if_neg h1, he]
  exact ⟨rfl, rfl⟩

/-- Witness for C10 at the concrete expression `,200` (whose first token
is empty). -/
theorem parseStatusRanges_dashEdge_witness :
    (parseStatusRanges ",200".data).1 = none ∧
    (parseStatusRanges ",200".data).2.isSome = true :=
  parseStatusRanges_dashEdge ",200".data [] (by decide) (by decide) (Or.inl rfl)

/-! ## Claims C1 and C8: response filtering -/

/-- The backward delete-while-iterating loop, stopped after the counter
reaches `j`, leaves the tail from `j` untouched and filters the prefix
before `j`. -/
theorem filterFrom_eq (ranges : List (Int × Int)) :
    ∀ (j : Nat) (rs : List Response), j ≤ rs.length →
      filterFrom ranges rs j =
        (rs.take j).filter (fun r => statusInAnyRange ranges r.code) ++ rs.drop j := by
  intro j
  induction j with
  | zero =>
    intro rs _
    simp [filterFrom]
  | succ j ih =>
    intro rs hle
    have hj : j < rs.length := Nat.lt_of_succ_le hle
    have hget : rs[j]? = some rs[j] := List.getElem?_eq_getElem hj
    have hdrop : rs.drop j = rs[j] :: rs.drop (j + 1) := List.drop_eq_getElem_cons hj
    unfold filterFrom
    rw [hget]
    dsimp only
    by_cases hkeep : statusInAnyRange ranges (rs[j]).code = true
    · have hsingle : List.filter (fun r => statusInAnyRange ranges r.code) [rs[j]] = [rs[j]] := by
        simp [hkeep]
      rw [if_pos hkeep, ih rs (Nat.le_of_lt hj), List.take_succ, hget, Option.toList_some,
        List.filter_append, hsingle, hdrop, List.append_assoc, List.singleton_append]
    · rw [if_neg hkeep]
      have hlen' : j ≤ (rs.eraseIdx j).length := by
        rw [List.length_eraseIdx, if_pos hj]
        omega
      have hlt : (rs.take j).length = j := by
        rw [List.length_take]
        exact min_eq_left (Nat.le_of_lt hj)
      rw [ih (rs.eraseIdx j) hlen', List.eraseIdx_eq_take_drop_succ,
        List.take_left' hlt, List.drop_left' hlt, List.take_succ, hget, List.filter_append]
      simp [hkeep]

/-- Running the loop over the whole list is exactly `List.filter` with
the in-some-range predicate. -/
theorem filterFrom_length_eq_filter (ranges : List (Int × Int)) (rs : List Response) :
    filterFrom ranges rs rs.length =
      rs.filter fun r => statusInAnyRange ranges r.code := by
  have h := filterFrom_eq ranges rs.length rs le_rfl
  simpa using h

/-- For a non-empty range list, the source's filter coincides with the
specification's order-preserving `List.filter` description. -/
theorem filterResponsesByStatus_eq_spec (c : Collection) (ranges : List (Int × Int))
    (hne : ranges ≠ []) :
    filterResponsesByStatus c (some ranges) = specFilterResponses c ranges := by
  cases ranges with
  | nil => exact absurd rfl hne
  | cons a t =>
    show ({ c with
        item := c.item.map fun ep =>
          { ep with response := filterFrom (a :: t) ep.response ep.response.length } } :
        Collection) = _
    unfold specFilterResponses
    have hfun :
        (fun ep : Endpoint =>
          { ep with response := filterFrom (a :: t) ep.response ep.response.length }) =
        (fun ep : Endpoint =>
          { ep with response := ep.response.filter fun r => statusInAnyRange (a :: t) r.code }) := by
      funext ep
      rw [filterFrom_length_eq_filter]
    rw [hfun]

/-- Claim C1: for every parsed collection and every non-empty range
list, `filterResponsesByStatus` makes every endpoint's `response` list
exactly the ordered subsequence of its original responses whose `code`
lies within at least one range (both ends inclusive), leaving everything
else unchanged; with a nil or empty range list the collection is left
completely unchanged; and a range whose start exceeds its end matches no
code. -/
theorem filterResponsesByStatus_correct (c : Collection) (ranges : List (Int × Int))
    (s e code : Int) (hne : ranges ≠ []) (hse : e < s) :
    filterResponsesByStatus c (some ranges) = specFilterResponses c ranges ∧
    filterResponsesByStatus c none = c ∧
    filterResponsesByStatus c (some []) = c ∧
    statusInRange code (s, e) = false := by
  refine ⟨filterResponsesByStatus_eq_spec c ranges hne, rfl, rfl, ?_⟩
  simp only [statusInRange, Bool.and_eq_false_iff, decide_eq_false_iff_not, not_le]
  omega

/-- Witness for C1 at a concrete collection and the range list
`[(200, 299)]` (plus the inverted range `(300, 200)`). -/
theorem filterResponsesByStatus_correct_witness :
    filterResponsesByStatus cEx (some [(200, 299)]) = specFilterResponses cEx [(200, 299)] ∧
    filterResponsesByStatus cEx none = cEx ∧
    filterResponsesByStatus cEx (some []) = cEx ∧
    statusInRange 250 (300, 200) = false :=
  filterResponsesByStatus_correct cEx [(200, 299)] 300 200 250 (by decide) (by decide)

/-- Claim C8: filtering is idempotent — applying
`filterResponsesByStatus` twice with the same ranges leaves the
collection exactly as applying it once. -/
theorem filterResponsesByStatus_idem (c : Collection)
    (statusRanges : Option (List (Int × Int))) :
    filterResponsesByStatus (filterResponsesByStatus c statusRanges) statusRanges =
      filterResponsesByStatus c statusRanges := by
  cases statusRanges with
  | none => rfl
  | some ranges =>
    cases ranges with
    | nil => rfl
    | cons a t =>
      have hne : (a :: t) ≠ ([] : List (Int × Int)) := by simp
      rw [filterResponsesByStatus_eq_spec c (a :: t) hne,
        filterResponsesByStatus_eq_spec _ (a :: t) hne]
      unfold specFilterResponses
      simp only [List.map_map]
      have hfun :
          ((fun ep : Endpoint =>
            { ep with response := ep.response.filter fun r => statusInAnyRange (a :: t) r.code }) ∘
           fun ep : Endpoint =>
            { ep with response := ep.response.filter fun r => statusInAnyRange (a :: t) r.code }) =
          fun ep : Endpoint =>
            { ep with response := ep.response.filter fun r => statusInAnyRange (a :: t) r.code } := by
        funext ep
        simp [Function.comp, List.filter_filter]
      rw [hfun]

/-! ## Claim C3: parseCollection's schema check -/

/-- Claim C3 counterexample: the claim says an absent `info` member
yields the schema-mismatch error, but on the decoded document with no
`info` member at all (the empty JSON object) `parseCollection` panics on
the `.(map[string]any)` interface assertion and returns no error. -/
theorem parseCollection_missing_info_cex :
    parseCollection (Json.obj []) = GoResult.panicked infoAssertMsg ∧
    (parseCollection (Json.obj [])).isError = false :=
  ⟨rfl, rfl⟩

/-- Claim C3 as amended: for every decoded document that is a JSON
object whose `info` member is itself an object, `parseCollection`
returns the schema-mismatch error exactly when `info.schema` is any
value other than the fixed identifier (absent or non-string included),
and returns the decoded collection unchanged with no error when it
equals it; when `info` is absent or not an object — or the document is
JSON `null`, which unmarshals into a nil map — the interface type
assertion panics instead of returning an error, and a document that is
not an object at all already fails `Unmarshal` with a decode error. -/
theorem parseCollection_schema_amended
    (fieldsA infoA fieldsB infoB fieldsC : List (String × Json)) (xs : List Json)
    (hA1 : lookupField fieldsA "info" = some (Json.obj infoA))
    (hA2 : lookupField infoA "schema" = some (Json.str expectedSchema))
    (hB1 : lookupField fieldsB "info" = some (Json.obj infoB))
    (hB2 : lookupField infoB "schema" ≠ some (Json.str expectedSchema))
    (hC1 : ∀ g, lookupField fieldsC "info" ≠ some (Json.obj g)) :
    parseCollection (Json.obj fieldsA) = GoResult.ok (Json.obj fieldsA) ∧
    parseCollection (Json.obj fieldsB) = GoResult.error schemaErrMsg ∧
    parseCollection (Json.obj fieldsC) = GoResult.panicked infoAssertMsg ∧
    parseCollection Json.null = GoResult.panicked infoAssertMsg ∧
    parseCollection (Json.arr xs) = GoResult.error decodeTypeMsg := by
  refine ⟨?_, ?_, ?_, rfl, rfl⟩
  · unfold parseCollection
    dsimp only
    rw [hA1]
    dsimp only
    rw [hA2]
    simp
  · unfold parseCollection
    dsimp only
    rw [hB1]
    dsimp only
    cases hs : lookupField infoB "schema" with
    | none => rfl
    | some v =>
      cases v with
      | str s =>
        have hne : ¬ s = expectedSchema := by
          intro h
          exact hB2 (by rw [hs, h])
        simp [if_neg hne]
      | null => rfl
      | bool b => rfl
      | num n => rfl
      | arr es => rfl
      | obj fs => rfl
  · unfold parseCollection
    dsimp only
    cases hi : lookupField fieldsC "info" with
    | none => rfl
    | some v =>
      cases v with
      | obj g => exact absurd hi (hC1 g)
      | null => rfl
      | bool b => rfl
      | num n => rfl
      | str s => rfl
      | arr es => rfl

/-- Witness for the amended C3 at concrete documents: a valid one, one
whose `info` object has no `schema`, and one with no `info` member. -/
theorem parseCollection_schema_amended_witness :
    parseCollection (Json.obj [("info", Json.obj [("schema", Json.str expectedSchema)])]) =
      GoResult.ok (Json.obj [("info", Json.obj [("schema", Json.str expectedSchema)])]) ∧
    parseCollection (Json.obj [("info", Json.obj [])]) = GoResult.error schemaErrMsg ∧
    parseCollection (Json.obj [("item", Json.arr [])]) = GoResult.panicked infoAssertMsg ∧
    parseCollection Json.null = GoResult.panicked infoAssertMsg ∧
    parseCollection (Json.arr []) = GoResult.error decodeTypeMsg :=
  parseCollection_schema_amended
    [("info", Json.obj [("schema", Json.str expectedSchema)])]
    [("schema", Json.str expectedSchema)]
    [("info", Json.obj [])] [] [("item", Json.arr [])] []
    rfl rfl rfl (fun h => Option.noConfusion h)
    (fun g h => by simp [lookupField] at h)

/-! ## Claim C4: getDestFile's three branches -/

/-- Claim C4: `getDestFile` satisfies its three-branch contract.  For
destination `"-"` it returns standard output under the final name `"-"`
and never errors or touches the state.  For a non-empty destination
other than `"-"` it errors with the file-exists message when the file
exists and overwrite confirmation is false, and otherwise
creates/truncates exactly that path; the final name is the given name.
For the empty destination it sanitizes the collection name, falls back
to the literal `"collection"` when sanitization yields the empty string,
gets a collision-free name from the unique namer with extension `.md`,
and creates that file, returning the generated name. -/
theorem getDestFile_branches
    (fs fsE fsN fsC : FS) (cn cnC dnE dnN un : String) (conf confC : Bool)
    (hE1 : dnE ≠ "-") (hE2 : dnE ≠ "")
    (hE3 : FileExists fsE dnE = true)
    (hN1 : dnN ≠ "-") (hN2 : dnN ≠ "")
    (hN3 : FileExists fsN dnN = false)
    (hU : CreateUniqueFileName fsC
      (if FormatFileName cnC = "" then "collection" else FormatFileName cnC) ".md" =
        GoResult.ok un) :
    getDestFile fs "-" cn conf = (GoResult.ok "-", fs) ∧
    getDestFile fsE dnE cn false = (GoResult.error (existsMsg dnE), fsE) ∧
    getDestFile fsE dnE cn true = (GoResult.ok dnE, osCreate fsE dnE) ∧
    getDestFile fsN dnN cn conf = (GoResult.ok dnN, osCreate fsN dnN) ∧
    getDestFile fsC "" cnC confC = (GoResult.ok un, osCreate fsC un) := by
  refine ⟨rfl, ?_, ?_, ?_, ?_⟩
  · unfold getDestFile
    rw [if_neg hE1, if_neg hE2]
    simp [hE3]
  · unfold getDestFile
    rw [if_neg hE1, if_neg hE2]
    simp [hE3]
  · unfold getDestFile
    rw [if_neg hN1, if_neg hN2]
    simp [hN3]
  · unfold getDestFile
    have h1 : ("" : String) ≠ "-" := by decide
    rw [if_neg h1, if_pos rfl]
    dsimp only
    rw [hU]

/-- Witness for C4 at concrete states and names. -/
theorem getDestFile_branches_witness :
    getDestFile ⟨[], "", [], false⟩ "-" "api" false = (GoResult.ok "-", ⟨[], "", [], false⟩) ∧
    getDestFile ⟨[("out.md", "x")], "", [], false⟩ "out.md" "api" false =
      (GoResult.error (existsMsg "out.md"), ⟨[("out.md", "x")], "", [], false⟩) ∧
    getDestFile ⟨[("out.md", "x")], "", [], false⟩ "out.md" "api" true =
      (GoResult.ok "out.md", osCreate ⟨[("out.md", "x")], "", [], false⟩ "out.md") ∧
    getDestFile ⟨[], "", [], false⟩ "new.md" "api" false =
      (GoResult.ok "new.md", osCreate ⟨[], "", [], false⟩ "new.md") ∧
    getDestFile ⟨[], "", [], false⟩ "" "My/API" false =
      (GoResult.ok "MyAPI.md", osCreate ⟨[], "", [], false⟩ "MyAPI.md") :=
  getDestFile_branches ⟨[], "", [], false⟩ ⟨[("out.md", "x")], "", [], false⟩
    ⟨[], "", [], false⟩ ⟨[], "", [], false⟩ "api" "My/API" "out.md" "new.md" "MyAPI.md"
    false false (by decide) (by decide) (by decide) (by decide) (by decide) (by decide)
    (by decide)

/-! ## Claim C7: the unique namer

The supporting lemmas: decimal digit strings are injective (so the
probed candidate names are pairwise distinct), a finite file list cannot
occupy every candidate among the first `length + 1` probes, and the
sequential probe returns the least free index. -/

theorem digitChar_ne_rparen : ∀ d, d < 10 → digitChar d ≠ ')' := by decide

theorem digitChar_toNat_sub (d : Nat) (h : d < 10) : (digitChar d).toNat - 48 = d := by
  interval_cases d <;> decide

theorem mem_natDigitsAux (fuel : Nat) :
    ∀ (n : Nat) (c : Char), c ∈ natDigitsAux fuel n → ∃ d, d < 10 ∧ c = digitChar d := by
  induction fuel with
  | zero =>
    intro n c hc
    cases hc
  | succ fuel ih =>
    intro n c hc
    unfold natDigitsAux at hc
    by_cases hn : n < 10
    · rw [if_pos hn] at hc
      rw [List.mem_singleton] at hc
      exact ⟨n, hn, hc⟩
    · rw [if_neg hn] at hc
      rcases List.mem_append.mp hc with h | h
      · exact ih (n / 10) c h
      · rw [List.mem_singleton] at h
        exact ⟨n % 10, Nat.mod_lt n (by omega), h⟩

theorem natDigits_ne_rparen (n : Nat) (c : Char) (hc : c ∈ natDigits n) : c ≠ ')' := by
  rcases mem_natDigitsAux (n + 1) n c hc with ⟨d, hd, rfl⟩
  exact digitChar_ne_rparen d hd

theorem digitsToNat_append_singleton (xs : List Char) (c : Char) :
    digitsToNat (xs ++ [c]) = 10 * digitsToNat xs + (c.toNat - 48) := by
  unfold digitsToNat
  rw [List.foldl_append]
  simp [Nat.mul_comm]

theorem digitsToNat_natDigitsAux (fuel : Nat) :
    ∀ n : Nat, n < fuel → digitsToNat (natDigitsAux fuel n) = n := by
  induction fuel with
  | zero =>
    intro n hn
    omega
  | succ fuel ih =>
    intro n hn
    unfold natDigitsAux
    by_cases h10 : n < 10
    · rw [if_pos h10]
      show digitsToNat ([] ++ [digitChar n]) = n
      rw [digitsToNat_append_singleton]
      simp [digitsToNat, digitChar_toNat_sub n h10]
    · rw [if_neg h10]
      have hdiv : n / 10 < fuel := by
        have : n / 10 < n := Nat.div_lt_self (by omega) (by omega)
        omega
      rw [digitsToNat_append_singleton, ih (n / 10) hdiv,
        digitChar_toNat_sub (n % 10) (Nat.mod_lt n (by omega))]
      omega

theorem natDigits_inj (a b : Nat) (h : natDigits a = natDigits b) : a = b := by
  have ha := digitsToNat_natDigitsAux (a + 1) a (Nat.lt_succ_self a)
  have hb := digitsToNat_natDigitsAux (b + 1) b (Nat.lt_succ_self b)
  unfold natDigits at h
  rw [← ha, ← hb, h]

theorem append_cons_cancel (c : Char) :
    ∀ (xs ys zs ws : List Char), c ∉ xs → c ∉ ys →
      xs ++ c :: zs = ys ++ c :: ws → xs = ys := by
  intro xs
  induction xs with
  | nil =>
    intro ys zs ws _ hy h
    cases ys with
    | nil => rfl
    | cons y ys' =>
      have := (List.cons.injEq _ _ _ _).mp h
      exact absurd (this.1 ▸ List.mem_cons_self y ys') hy
  | cons x xs' ih =>
    intro ys zs ws hx hy h
    cases ys with
    | nil =>
      have := (List.cons.injEq _ _ _ _).mp h
      exact absurd (this.1 ▸ List.mem_cons_self x xs') hx
    | cons y ys' =>
      have hinj := (List.cons.injEq _ _ _ _).mp h
      have hx' : c ∉ xs' := fun hm => hx (List.mem_cons_of_mem x hm)
      have hy' : c ∉ ys' := fun hm => hy (List.mem_cons_of_mem y hm)
      rw [hinj.1, ih ys' zs ws hx' hy' hinj.2]

theorem nameWithIdx_inj (base ext : String) (i j : Nat)
    (h : nameWithIdx base ext i = nameWithIdx base ext j) : i = j := by
  have hdata := congrArg String.data h
  unfold nameWithIdx at hdata
  simp only [String.data_append, List.append_assoc, List.singleton_append] at hdata
  have hmid : natDigits i ++ ')' :: ext.data = natDigits j ++ ')' :: ext.data := by
    have h1 := List.append_cancel_left hdata
    exact ((List.cons.injEq _ _ _ _).mp h1).2
  exact natDigits_inj i j
    (append_cons_cancel ')' (natDigits i) (natDigits j) (ext.data) (ext.data)
      (fun hm => natDigits_ne_rparen i ')' hm rfl)
      (fun hm => natDigits_ne_rparen j ')' hm rfl) hmid)

theorem fileExists_iff_mem (fs : FS) (name : String) :
    FileExists fs name = true ↔ name ∈ fs.files.map Prod.fst := by
  unfold FileExists
  rw [List.any_eq_true]
  constructor
  · rintro ⟨f, hf, heq⟩
    rw [decide_eq_true_eq] at heq
    exact heq ▸ List.mem_map_of_mem Prod.fst hf
  · intro hmem
    rcases List.mem_map.mp hmem with ⟨f, hf, hfst⟩
    exact ⟨f, hf, by rw [decide_eq_true_eq, hfst]⟩

theorem exists_free_idx (fs : FS) (base ext : String) :
    ∃ i, 1 ≤ i ∧ i ≤ fs.files.length + 1 ∧
      FileExists fs (nameWithIdx base ext i) = false := by
  by_contra hcon
  push_neg at hcon
  have hall : ∀ i, 1 ≤ i → i ≤ fs.files.length + 1 →
      nameWithIdx base ext i ∈ (fs.files.map Prod.fst).toFinset := by
    intro i h1 h2
    have := hcon i h1 h2
    rw [Bool.ne_false_iff] at this
    exact List.mem_toFinset.mpr ((fileExists_iff_mem fs _).mp this)
  have hcard : (Finset.Icc 1 (fs.files.length + 1)).card ≤
      (fs.files.map Prod.fst).toFinset.card := by
    apply Finset.card_le_card_of_injOn (nameWithIdx base ext)
    · intro i hi
      rw [Finset.mem_Icc] at hi
      exact hall i hi.1 hi.2
    · intro i _ j _ hij
      exact nameWithIdx_inj base ext i j hij
  rw [Nat.card_Icc] at hcard
  have h1 : (fs.files.map Prod.fst).toFinset.card ≤ fs.files.length := by
    calc (fs.files.map Prod.fst).toFinset.card
        ≤ (fs.files.map Prod.fst).length := List.toFinset_card_le _
      _ = fs.files.length := List.length_map _ _
  omega

theorem firstFreeIdx_spec (fs : FS) (base ext : String) :
    ∀ (fuel i : Nat),
      (∃ k, i ≤ k ∧ k < i + fuel ∧ FileExists fs (nameWithIdx base ext k) = false) →
      FileExists fs (nameWithIdx base ext (firstFreeIdx fs base ext fuel i)) = false ∧
      i ≤ firstFreeIdx fs base ext fuel i ∧
      ∀ j, i ≤ j → j < firstFreeIdx fs base ext fuel i →
        FileExists fs (nameWithIdx base ext j) = true := by
  intro fuel
  induction fuel with
  | zero =>
    intro i hex
    rcases hex with ⟨k, hk1, hk2, _⟩
    omega
  | succ fuel ih =>
    intro i hex
    unfold firstFreeIdx
    by_cases htaken : FileExists fs (nameWithIdx base ext i) = true
    · rw [if_pos htaken]
      have hex' : ∃ k, i + 1 ≤ k ∧ k < (i + 1) + fuel ∧
          FileExists fs (nameWithIdx base ext k) = false := by
        rcases hex with ⟨k, hk1, hk2, hk3⟩
        refine ⟨k, ?_, by omega, hk3⟩
        rcases Nat.eq_or_lt_of_le hk1 with heq | hlt
        · rw [heq] at htaken
          rw [htaken] at hk3
          exact Bool.noConfusion hk3
        · omega
      rcases ih (i + 1) hex' with ⟨hfree, hge, hmin⟩
      refine ⟨hfree, by omega, ?_⟩
      intro j hj1 hj2
      rcases Nat.eq_or_lt_of_le hj1 with heq | hlt
      · rw [← heq]
        exact htaken
      · exact hmin j hlt hj2
    · rw [if_neg htaken]
      refine ⟨Bool.not_eq_true _ ▸ (Bool.eq_false_iff.mpr ?_), Nat.le_refl i, ?_⟩
      · intro habs
        exact htaken habs
      · intro j hj1 hj2
        omega

/-- Claim C7: `CreateUniqueFileName base ext` returns `base ++ ext`
unchanged when no file exists at that name; otherwise it returns
`base(i) ++ ext` for the index the sequential probe from 1 settles on,
that candidate is free and every smaller candidate index from 1 up is
taken (smallest suffix, no gap-filling or randomization); and it panics
exactly on a malformed extension (non-empty without a leading dot, or a
bare dot).  The function only reads file existence: its type returns no
filesystem state, so it can create nothing. -/
theorem CreateUniqueFileName_spec
    (fs fsT fsP : FS) (base baseT baseP ext extT extP : String)
    (hv : validExt ext = true)
    (hfree : FileExists fs (base ++ ext) = false)
    (hvT : validExt extT = true)
    (htaken : FileExists fsT (baseT ++ extT) = true)
    (hvP : validExt extP = false) :
    CreateUniqueFileName fs base ext = GoResult.ok (base ++ ext) ∧
    CreateUniqueFileName fsT baseT extT =
      GoResult.ok (nameWithIdx baseT extT (uniqueIdx fsT baseT extT)) ∧
    1 ≤ uniqueIdx fsT baseT extT ∧
    FileExists fsT (nameWithIdx baseT extT (uniqueIdx fsT baseT extT)) = false ∧
    (∀ j, 1 ≤ j → j < uniqueIdx fsT baseT extT →
      FileExists fsT (nameWithIdx baseT extT j) = true) ∧
    CreateUniqueFileName fsP baseP extP = GoResult.panicked extMsg := by
  have hprobe := firstFreeIdx_spec fsT baseT extT (fsT.files.length + 1) 1 (by
    rcases exists_free_idx fsT baseT extT with ⟨k, hk1, hk2, hk3⟩
    exact ⟨k, hk1, by omega, hk3⟩)
  refine ⟨?_, ?_, hprobe.2.1, hprobe.1, fun j hj1 hj2 => hprobe.2.2 j hj1 hj2, ?_⟩
  · unfold CreateUniqueFileName
    rw [if_neg (by rw [hv]; simp), if_pos hfree]
  · unfold CreateUniqueFileName
    rw [if_neg (by rw [hvT]; simp), if_neg (by rw [htaken]; simp)]
  · unfold CreateUniqueFileName
    rw [if_pos hvP]

/-- Witness for C7 at concrete states, echoing `TestCreateUniqueFileName`
and `TestCreateUniqueFileNamePanic`: a free name is returned unchanged
(`nonexistent file.txt`), with `README.md` and `README(1).md` taken the
probe settles on the free candidate (concretely `README(2).md`), and the
dotless extension `md` panics. -/
theorem CreateUniqueFileName_spec_witness :
    CreateUniqueFileName ⟨[], "", [], false⟩ "nonexistent file" ".txt" =
      GoResult.ok "nonexistent file.txt" ∧
    CreateUniqueFileName ⟨[("README.md", ""), ("README(1).md", "")], "", [], false⟩
        "README" ".md" =
      GoResult.ok (nameWithIdx "README" ".md"
        (uniqueIdx ⟨[("README.md", ""), ("README(1).md", "")], "", [], false⟩ "README" ".md")) ∧
    FileExists ⟨[("README.md", ""), ("README(1).md", "")], "", [], false⟩
      (nameWithIdx "README" ".md"
        (uniqueIdx ⟨[("README.md", ""), ("README(1).md", "")], "", [], false⟩
          "README" ".md")) = false ∧
    nameWithIdx "README" ".md"
      (uniqueIdx ⟨[("README.md", ""), ("README(1).md", "")], "", [], false⟩ "README" ".md") =
      "README(2).md" ∧
    CreateUniqueFileName ⟨[], "", [], false⟩ "README" "md" = GoResult.panicked extMsg := by
  have h := CreateUniqueFileName_spec ⟨[], "", [], false⟩
    ⟨[("README.md", ""), ("README(1).md", "")], "", [], false⟩ ⟨[], "", [], false⟩
    "nonexistent file" "README" "README" ".txt" ".md" "md"
    (by decide) (by decide) (by decide) (by decide) (by decide)
  exact ⟨h.1, h.2.1, h.2.2.2.1, by decide, h.2.2.2.2.2⟩

/-! ## Claim C9: rendering determinism

The pipeline is pure: with the template engine fixed (it is the external
`html/template` collaborator and takes no input other than the template
and the collection), two executions from equal states write byte-for-byte
identical output. -/

/-- Claim C9: rendering is deterministic — for a fixed collection and
template, two executions of `executeTemplate` from equal initial states
produce equal errors and equal sink states (hence byte-identical
Markdown), in particular on the minimal valid collection with one
endpoint and one response. -/
theorem executeTemplate_deterministic
    (engine : TmplEngine) (fs1 fs2 : FS) (sinkName tmplName tmplStr : String)
    (c : Collection) (h : fs1 = fs2) :
    executeTemplate engine fs1 sinkName c tmplName tmplStr =
      executeTemplate engine fs2 sinkName c tmplName tmplStr ∧
    executeTemplate engine fs1 sinkName minimalCollection tmplName tmplStr =
      executeTemplate engine fs2 sinkName minimalCollection tmplName tmplStr := by
  subst h
  exact ⟨rfl, rfl⟩

/-- Witness for C9 with a concrete engine, sink and collection. -/
theorem executeTemplate_deterministic_witness :
    executeTemplate engineOkEx ⟨[], "", [], false⟩ "-" cEx "t" "s" =
      executeTemplate engineOkEx ⟨[], "", [], false⟩ "-" cEx "t" "s" ∧
    executeTemplate engineOkEx ⟨[], "", [], false⟩ "-" minimalCollection "t" "s" =
      executeTemplate engineOkEx ⟨[], "", [], false⟩ "-" minimalCollection "t" "s" :=
  executeTemplate_deterministic engineOkEx ⟨[], "", [], false⟩ ⟨[], "", [], false⟩
    "-" "t" "s" cEx rfl

/-! ## Claim C2: cleanup after a failed render -/

/-- After `os.Remove name` the name no longer exists. -/
theorem fileExists_osRemove (fs : FS) (n : String) :
    FileExists (osRemove fs n) n = false := by
  unfold FileExists osRemove
  rw [Bool.eq_false_iff]
  intro h
  rcases List.any_eq_true.mp h with ⟨f, hf, heq⟩
  rw [decide_eq_true_eq] at heq
  have hp := List.of_mem_filter hf
  rw [decide_eq_true_eq] at hp
  exact hp heq

/-- Claim C2 counterexample: with destination name `"-"` the claim says
no deletion of the sink is attempted and it is left as-is, but on a
render-execution failure the code still runs `destFile.Close()` and
`os.Remove("-")`: starting from a state holding a regular file named
`-`, the conversion deletes that file and closes standard output (the
partial output remains on stdout). -/
theorem jsonToMdFile_stdout_cleanup_cex :
    FileExists ⟨[("-", "x")], "", [], false⟩ "-" = true ∧
    jsonToMdFile engineFailEx ⟨[("-", "x")], "", [], false⟩ docEx "-" "t" "s" none false =
      (GoResult.error "boom", ⟨[], "PART", [], true⟩) ∧
    FileExists
      (jsonToMdFile engineFailEx ⟨[("-", "x")], "", [], false⟩
        docEx "-" "t" "s" none false).2 "-" = false ∧
    (jsonToMdFile engineFailEx ⟨[("-", "x")], "", [], false⟩
      docEx "-" "t" "s" none false).2.stdoutClosed = true := by
  refine ⟨rfl, ?_, ?_, ?_⟩ <;> decide

/-- Claim C2 as amended: whenever the conversion reaches rendering and
template execution fails, `jsonToMdFile` closes the sink, removes the
destination name and returns the error.  For a file destination this is
exactly the claim: the created file is deleted (under the reported or
generated name) and its handle released, so no partial artifact remains.
For destination `"-"` the sink itself — standard output — cannot be and
is not deleted and keeps the partial output, but the cleanup still runs:
standard output is closed, and a regular file literally named `-` is
removed if one exists. -/
theorem jsonToMdFile_render_failure_cleanup
    (engine : TmplEngine) (fs fs1 fs2 : FS) (doc parsed : Json) (c0 : Collection)
    (destName tmplName tmplStr finalName e : String)
    (statusRanges : Option (List (Int × Int))) (conf : Bool)
    (hp : parseCollection doc = GoResult.ok parsed)
    (hc : asCollection parsed = some c0)
    (hd : getDestFile fs destName (filterResponsesByStatus c0 statusRanges).name conf =
      (GoResult.ok finalName, fs1))
    (he : executeTemplate engine fs1 finalName (filterResponsesByStatus c0 statusRanges)
      tmplName tmplStr = (some e, fs2)) :
    jsonToMdFile engine fs doc destName tmplName tmplStr statusRanges conf =
      (GoResult.error e, osRemove (closeSink fs2 finalName) finalName) ∧
    FileExists (osRemove (closeSink fs2 finalName) finalName) finalName = false ∧
    (finalName ≠ "-" →
      finalName ∉ (osRemove (closeSink fs2 finalName) finalName).openHandles) ∧
    (finalName = "-" →
      (osRemove (closeSink fs2 finalName) finalName).stdoutClosed = true ∧
      (osRemove (closeSink fs2 finalName) finalName).stdout = fs2.stdout) := by
  refine ⟨?_, fileExists_osRemove _ _, ?_, ?_⟩
  · unfold jsonToMdFile
    rw [hp]
    dsimp only
    rw [hc]
    dsimp only
    rw [hd]
    dsimp only
    rw [he]
  · intro hne hmem
    unfold osRemove closeSink at hmem
    rw [if_neg hne] at hmem
    dsimp only at hmem
    have hp' := List.of_mem_filter hmem
    rw [decide_eq_true_eq] at hp'
    exact hp' rfl
  · intro hdash
    subst hdash
    unfold osRemove closeSink
    simp

/-- Witness for the amended C2: a file destination `out.md` is created,
rendering fails, and the file and its handle are gone while the error is
returned. -/
theorem jsonToMdFile_render_failure_cleanup_witness :
    jsonToMdFile engineFailEx ⟨[], "", [], false⟩ docEx "out.md" "t" "s" none false =
      (GoResult.error "boom",
        osRemove (closeSink ⟨[("out.md", "PART")], "", ["out.md"], false⟩ "out.md") "out.md") ∧
    FileExists
      (osRemove (closeSink ⟨[("out.md", "PART")], "", ["out.md"], false⟩ "out.md") "out.md")
      "out.md" = false ∧
    "out.md" ∉
      (osRemove (closeSink ⟨[("out.md", "PART")], "", ["out.md"], false⟩ "out.md")
        "out.md").openHandles := by
  have h := jsonToMdFile_render_failure_cleanup engineFailEx ⟨[], "", [], false⟩
    ⟨[("out.md", "")], "", ["out.md"], false⟩ ⟨[("out.md", "PART")], "", ["out.md"], false⟩
    docEx docEx cDocEx "out.md" "t" "s" "out.md" "boom" none false
    rfl rfl (by decide) (by decide)
  exact ⟨h.1, h.2.1, h.2.2.1 (by decide)⟩

end Pm2Md
